import Mathlib

/-!
Verification of the asynchronous dispatch and safe-archive-extraction core of
the shepherd webhook receiver.

The development shallowly embeds:
- the lexical path handling of Go's path/filepath package (unix separator),
  as used by `extractFile` in pkg/usecase/release.go;
- the ZIP extraction pipeline `extractZip` / `extractFile` with its size
  ceilings, path-traversal check and deferred temp-directory cleanup;
- the async dispatcher `Dispatch` / `newBackgroundContext` from
  pkg/utils/async/dispatch.go;
- the `ProcessRelease` → `ProcessSource` delegation from
  pkg/usecase/release.go.

File-system effects are made explicit as a small state record threaded through
the extraction functions; fallible OS operations are driven by explicit fault
flags so that every error branch of the source is reachable in the model.
-/

/- ### Go path/filepath lexical path model (unix separator) -/

/-- Split a character list on the path separator character. -/
def splitOnSep : List Char → List (List Char)
  | [] => [[]]
  | c :: rest =>
    let r := splitOnSep rest
    if c = '/' then [] :: r
    else
      match r with
      | [] => [[c]]
      | h :: t => (c :: h) :: t

/-- One step of Go filepath.Clean element processing: push a path component
onto the stack of kept components (most recent first); `.` and empty
components are dropped, `..` cancels the preceding kept component, and a
leading `..` is dropped for rooted paths and kept for relative ones. -/
def cleanPush (rooted : Bool) (stack : List (List Char)) (comp : List Char) :
    List (List Char) :=
  if comp = [] ∨ comp = ['.'] then stack
  else if comp = ['.', '.'] then
    match stack with
    | [] => if rooted then [] else [['.', '.']]
    | top :: rest => if top = ['.', '.'] then ['.', '.'] :: stack else rest
  else comp :: stack

/-- Go filepath.Clean on a character list (unix rules): collapse repeated
separators, drop `.` elements, resolve `..` against the preceding element,
drop `..` at the root, return `.` for an empty relative result and `/` for an
empty rooted result. -/
def cleanList (cs : List Char) : List Char :=
  let rooted := match cs with
    | [] => false
    | c :: _ => c = '/'
  let stack := (splitOnSep cs).foldl (cleanPush rooted) []
  let body := List.intercalate ['/'] stack.reverse
  if rooted then '/' :: body
  else if body = [] then ['.'] else body

/-- Go filepath.Clean lifted to String. -/
def filepathClean (s : String) : String := ⟨cleanList s.data⟩

/-- Go filepath.Join for two elements: empty elements are dropped, the rest
are joined with the separator and the result is cleaned; joining no
non-empty elements gives the empty string. -/
def filepathJoin (a b : String) : String :=
  if a = "" then (if b = "" then "" else filepathClean b)
  else if b = "" then filepathClean a
  else filepathClean ⟨a.data ++ '/' :: b.data⟩

/-- Go filepath.Dir: everything up to and including the final separator,
cleaned; a path with no separator has directory `.`. -/
def filepathDir (s : String) : String :=
  ⟨cleanList ((s.data.reverse.dropWhile (fun c => !(c == '/'))).reverse)⟩

/-- Go strings.HasPrefix s p: p is a prefix of s. -/
def strHasPref (s p : String) : Bool := p.data.isPrefixOf s.data

/-- Does `sub` occur as a contiguous run inside `l`? -/
def listContainsRun (sub : List Char) : List Char → Bool
  | [] => sub.isPrefixOf ([] : List Char)
  | c :: rest => sub.isPrefixOf (c :: rest) || listContainsRun sub rest

/-- Go strings.Contains s sub: sub occurs somewhere in s. -/
def strContainsSub (s sub : String) : Bool := listContainsRun sub.data s.data

/- ### Data model of the extractor (pkg/usecase/release.go and
pkg/domain/model/download.go) -/

/-- Maximum size for a single file (1GB), constant `maxFileSize` of
pkg/usecase/release.go. -/
def maxFileSize : Nat := 1 * 1024 * 1024 * 1024

/-- Maximum total uncompressed size (10GB), constant `maxTotalSize` of
pkg/usecase/release.go. -/
def maxTotalSize : Nat := 10 * 1024 * 1024 * 1024

/-- The constant `maxInt64` used by the overflow guard in `extractZip`. -/
def maxInt64 : Nat := 2 ^ 63 - 1

/-- One archive entry as seen through Go's zip.File: recorded name,
directory flag, the declared uncompressed size from the header
(UncompressedSize64), the actual decompressed content bytes, and mode bits.
The trailing flags drive the fallible OS calls of `extractFile`
(file.Open, os.MkdirAll, os.OpenFile, io.Copy): `copyFailsAfter = some k`
means io.Copy fails after writing k bytes. -/
structure ZipEntry where
  name : String
  isDir : Bool
  declaredSize : Nat
  content : List Nat
  mode : Nat
  openFails : Bool
  mkdirFails : Bool
  createFails : Bool
  copyFailsAfter : Option Nat
deriving DecidableEq

/-- Declared uncompressed sizes of a list of entries, summed. -/
def sumDeclared (entries : List ZipEntry) : Nat :=
  (entries.map ZipEntry.declaredSize).sum

/-- Result of a ZIP download and extraction, struct DownloadResult of
pkg/domain/model/download.go. -/
structure DownloadResult where
  tempDir : String
  files : List String
  size : Nat
deriving DecidableEq

/-- Error kinds of the extraction pipeline, one per distinct fmt.Errorf site
of `extractZip` / `extractFile`. -/
inductive ExtractError where
  | mkdirTempFailed : ExtractError
  | chmodFailed : ExtractError
  | invalidArchive : ExtractError
  | fileTooLarge : String → ExtractError
  | sizeOverflow : Nat → ExtractError
  | totalTooLarge : Nat → ExtractError
  | pathTraversal : String → ExtractError
  | ioFailure : String → ExtractError
deriving DecidableEq

/-- Explicit file-system state threaded through the extraction model: whether
the temporary directory currently exists, the directories created beneath it,
and the files written (absolute path and bytes, most recent first). -/
structure FS where
  tempDirExists : Bool
  dirs : List String
  files : List (String × List Nat)
deriving DecidableEq

/-- File-system state before the temporary directory is created (and after it
is removed). -/
def emptyFS : FS := ⟨false, [], []⟩

/-- File-system state right after os.MkdirTemp succeeded: the fresh directory
exists and holds nothing. -/
def freshFS : FS := ⟨true, [], []⟩

/-- Environment of one `extractZip` call: the name os.MkdirTemp picks for the
temporary directory, and fault flags for os.MkdirTemp, os.Chmod and the
deferred os.RemoveAll. -/
structure ExtractEnv where
  tempDir : String
  mkdirTempFails : Bool
  chmodFails : Bool
  removeAllFails : Bool
deriving DecidableEq

/-- The deferred cleanup of `extractZip`: best-effort os.RemoveAll of the
temporary directory (a failure is logged and leaves the state as is). -/
def removeAll (env : ExtractEnv) (fs : FS) : FS :=
  if env.removeAllFails then fs else ⟨false, [], []⟩

/-- The path-traversal guard of `extractFile`: the joined destination path
must start with Clean(destDir) followed by the path separator. -/
def pathOk (destDir name : String) : Bool :=
  strHasPref (filepathJoin destDir name) (filepathClean destDir ++ "/")

/-- extractFile of pkg/usecase/release.go: join the destination path and
reject it unless it starts with Clean(destDir) plus the separator; open the
entry; for a directory entry run os.MkdirAll on the destination (its content
is never read); otherwise create the parent directories, create the
destination file and io.Copy the decompressed content into it. The copy
reads through archive/zip's checksumReader, which fails the read (with
io.ErrUnexpectedEOF, or ErrFormat past the header size) whenever the entry's
actual stream length differs from the declared UncompressedSize64 — so the
copy of a file entry succeeds only when the stream is exactly the declared
length, and on a mismatch the file holds at most the declared prefix of the
stream when the error is returned. Returns the updated file-system state and
the error, if any. -/
def extractFile (destDir : String) (file : ZipEntry) (fs : FS) :
    FS × Option ExtractError :=
  let destPath := filepathJoin destDir file.name
  if strHasPref destPath (filepathClean destDir ++ "/") = false then
    (fs, some (ExtractError.pathTraversal file.name))
  else if file.openFails then
    (fs, some (ExtractError.ioFailure file.name))
  else if file.isDir then
    if file.mkdirFails then (fs, some (ExtractError.ioFailure file.name))
    else (⟨fs.tempDirExists, destPath :: fs.dirs, fs.files⟩, none)
  else if file.mkdirFails then
    (fs, some (ExtractError.ioFailure file.name))
  else if file.createFails then
    (⟨fs.tempDirExists, filepathDir destPath :: fs.dirs, fs.files⟩,
     some (ExtractError.ioFailure file.name))
  else
    match file.copyFailsAfter with
    | some k =>
      (⟨fs.tempDirExists, filepathDir destPath :: fs.dirs,
        (destPath, file.content.take k) :: fs.files⟩,
       some (ExtractError.ioFailure file.name))
    | none =>
      if file.content.length = file.declaredSize then
        (⟨fs.tempDirExists, filepathDir destPath :: fs.dirs,
          (destPath, file.content) :: fs.files⟩, none)
      else
        (⟨fs.tempDirExists, filepathDir destPath :: fs.dirs,
          (destPath, file.content.take file.declaredSize) :: fs.files⟩,
         some (ExtractError.ioFailure file.name))

/-- The entry loop of `extractZip`: for each entry in archive order, reject if
the declared size exceeds `maxFileSize`, reject on int64 overflow, reject if
the running declared total would exceed `maxTotalSize`, then extract the entry
and accumulate its name and declared size. -/
def extractLoop (destDir : String) :
    List ZipEntry → FS → Nat → List String →
    FS × Except ExtractError (List String × Nat)
  | [], fs, total, names => (fs, Except.ok (names.reverse, total))
  | file :: rest, fs, total, names =>
    if file.declaredSize > maxFileSize then
      (fs, Except.error (ExtractError.fileTooLarge file.name))
    else if file.declaredSize > maxInt64 then
      (fs, Except.error (ExtractError.sizeOverflow file.declaredSize))
    else
      let newTotal := total + file.declaredSize
      if newTotal > maxTotalSize then
        (fs, Except.error (ExtractError.totalTooLarge newTotal))
      else
        match extractFile destDir file fs with
        | (fs2, some e) => (fs2, Except.error e)
        | (fs2, none) => extractLoop destDir rest fs2 newTotal (file.name :: names)

/-- extractZip of pkg/usecase/release.go: create the temporary directory,
arm the deferred best-effort cleanup, restrict the directory permissions,
open the ZIP index (`none` models bytes zip.NewReader rejects), run the entry
loop, and on success disarm the cleanup and return the result. On any error
after the directory was created, the deferred cleanup removes it. -/
def extractZip (env : ExtractEnv) (zipData : Option (List ZipEntry)) :
    FS × Except ExtractError DownloadResult :=
  if env.mkdirTempFails then
    (emptyFS, Except.error ExtractError.mkdirTempFailed)
  else if env.chmodFails then
    (removeAll env freshFS, Except.error ExtractError.chmodFailed)
  else
    match zipData with
    | none => (removeAll env freshFS, Except.error ExtractError.invalidArchive)
    | some entries =>
      match extractLoop env.tempDir entries freshFS 0 [] with
      | (fs, Except.error e) => (removeAll env fs, Except.error e)
      | (fs, Except.ok (names, total)) =>
        (fs, Except.ok ⟨env.tempDir, names, total⟩)

/-- An entry whose fallible OS calls all succeed; for a file entry this
includes the copy, which succeeds only when the stream length matches the
declared uncompressed size (the zip reader's checksum/size enforcement). -/
def entryFaultFree (e : ZipEntry) : Bool :=
  !e.openFails && !e.mkdirFails && !e.createFails && e.copyFailsAfter.isNone &&
    (e.isDir || e.content.length == e.declaredSize)

/-- An entry that passes the path-traversal guard and whose OS calls
succeed. -/
def entryOk (destDir : String) (e : ZipEntry) : Bool :=
  pathOk destDir e.name && entryFaultFree e

/-- The file-system effect of successfully extracting one entry. -/
def fsStep (destDir : String) (fs : FS) (e : ZipEntry) : FS :=
  if e.isDir then
    ⟨fs.tempDirExists, filepathJoin destDir e.name :: fs.dirs, fs.files⟩
  else
    ⟨fs.tempDirExists, filepathDir (filepathJoin destDir e.name) :: fs.dirs,
     (filepathJoin destDir e.name, e.content) :: fs.files⟩

/- ### Async dispatcher model (pkg/utils/async/dispatch.go) -/

/-- An abstract structured logger (identified by a tag), the ctxlog value. -/
structure Logger where
  loggerId : Nat
deriving DecidableEq

/-- The logger ctxlog.From falls back to when the context carries none. -/
def defaultLogger : Logger := ⟨0⟩

/-- A Go context, shallowly: the ctxlog logger value, whether the context has
been cancelled, its deadline, and any other context values. -/
structure GoContext where
  logger : Option Logger
  cancelled : Bool
  deadline : Option Nat
  otherValues : List (String × String)
deriving DecidableEq

/-- ctxlog.From: the logger stored in the context, or the default. -/
def ctxlogFrom (ctx : GoContext) : Logger := ctx.logger.getD defaultLogger

/-- ctxlog.With: store a logger in the context. -/
def ctxlogWith (ctx : GoContext) (l : Logger) : GoContext :=
  ⟨some l, ctx.cancelled, ctx.deadline, ctx.otherValues⟩

/-- context.Background(): carries no values, is never cancelled and has no
deadline. -/
def backgroundContext : GoContext := ⟨none, false, none, []⟩

/-- newBackgroundContext of pkg/utils/async/dispatch.go: a new
context.Background() holding only the caller's ctxlog logger. -/
def newBackgroundContext (ctx : GoContext) : GoContext :=
  ctxlogWith backgroundContext (ctxlogFrom ctx)

/-- Cancel a context (the effect of the caller's cancel function firing). -/
def cancelContext (ctx : GoContext) : GoContext :=
  ⟨ctx.logger, true, ctx.deadline, ctx.otherValues⟩

/-- Attach a deadline to a context. -/
def withDeadline (ctx : GoContext) (d : Nat) : GoContext :=
  ⟨ctx.logger, ctx.cancelled, some d, ctx.otherValues⟩

/-- Outcome of running a dispatched handler on its goroutine: it returns nil,
returns an error, or panics with a payload (the stack trace captured by
runtime/debug.Stack is carried alongside). -/
inductive HandlerOutcome where
  | ok : HandlerOutcome
  | err : String → HandlerOutcome
  | panicked : String → String → HandlerOutcome
deriving DecidableEq

/-- One structured log record emitted through the ctxlog logger. -/
structure LogEntry where
  level : String
  message : String
  attrs : List (String × String)
deriving DecidableEq

/-- The failure boundary of the goroutine body of `Dispatch`: a nil return
logs nothing, a returned error is logged once as "error in async handler",
and a recovered panic is logged once as "panic in async handler" with the
recovered payload and the textual stack. -/
def runDispatchBoundary (outcome : HandlerOutcome) : List LogEntry :=
  match outcome with
  | HandlerOutcome.ok => []
  | HandlerOutcome.err m =>
    [⟨"error", "error in async handler", [("error", m)]⟩]
  | HandlerOutcome.panicked payload stack =>
    [⟨"error", "panic in async handler", [("recover", payload), ("stack", stack)]⟩]

/-- Dispatch of pkg/utils/async/dispatch.go: derive the detached background
context, run the handler on its own goroutine inside the failure boundary,
and return nothing to the caller. The model returns the (unit) value the
caller sees together with the log records the goroutine emits. -/
def Dispatch (ctx : GoContext) (handler : GoContext → HandlerOutcome) :
    Unit × List LogEntry :=
  let newCtx := newBackgroundContext ctx
  ((), runDispatchBoundary (handler newCtx))

/- ### Release / source processing model (pkg/usecase/release.go) -/

/-- ReleaseInfo of pkg/domain/model (webhook.go). -/
structure ReleaseInfo where
  owner : String
  repo : String
  commitSHA : String
  tagName : String
  releaseName : String
deriving DecidableEq

/-- SourceInfo of pkg/domain/model (source.go). -/
structure SourceInfo where
  owner : String
  repo : String
  commitSHA : String
  eventType : String
  ref : String
  actor : String
  metadata : List (String × String)
deriving DecidableEq

/-- Errors of ProcessSource: the zipball download failed, or the extraction
failed. -/
inductive ProcessError where
  | downloadFailed : String → ProcessError
  | extractFailed : ExtractError → ProcessError
deriving DecidableEq

/-- ProcessSource of pkg/usecase/release.go: download the zipball for
(owner, repo, commitSHA) through the GitHub client, then extract it with
`extractZip`; each failure is wrapped and returned. -/
def ProcessSource (env : ExtractEnv)
    (download : String → String → String → Except String (Option (List ZipEntry)))
    (info : SourceInfo) : FS × Except ProcessError DownloadResult :=
  match download info.owner info.repo info.commitSHA with
  | Except.error m => (emptyFS, Except.error (ProcessError.downloadFailed m))
  | Except.ok zipData =>
    match extractZip env zipData with
    | (fs, Except.error e) => (fs, Except.error (ProcessError.extractFailed e))
    | (fs, Except.ok r) => (fs, Except.ok r)

/-- The ReleaseInfo → SourceInfo conversion performed inline by
ProcessRelease: event type "release", Ref from the tag name, empty Actor, and
metadata carrying tag_name and release_name. -/
def releaseToSource (info : ReleaseInfo) : SourceInfo :=
  ⟨info.owner, info.repo, info.commitSHA, "release", info.tagName, "",
   [("tag_name", info.tagName), ("release_name", info.releaseName)]⟩

/-- ProcessRelease of pkg/usecase/release.go: convert the ReleaseInfo to a
SourceInfo and delegate to ProcessSource. -/
def ProcessRelease (env : ExtractEnv)
    (download : String → String → String → Except String (Option (List ZipEntry)))
    (info : ReleaseInfo) : FS × Except ProcessError DownloadResult :=
  ProcessSource env download (releaseToSource info)

/- ### Lemmas about extractFile -/

/-- An entry passing the path guard with all OS calls succeeding extracts
without error and performs exactly the `fsStep` file-system effect. -/
theorem extractFile_of_entryOk (d : String) (e : ZipEntry) (fs : FS)
    (h : entryOk d e = true) :
    extractFile d e fs = (fsStep d fs e, none) := by
  obtain ⟨nm, di, ds, ct, md, o, m, cr, cp⟩ := e
  simp only [entryOk, entryFaultFree, pathOk, Bool.and_eq_true, Bool.not_eq_true',
    Option.isNone_iff_eq_none, Bool.or_eq_true, beq_iff_eq] at h
  obtain ⟨hp, hrest⟩ := h
  cases o <;> cases m <;> cases cr <;> cases cp <;> cases di <;>
    simp at hrest <;>
    simp [extractFile, fsStep, hp, hrest]

/-- An entry failing the path guard is rejected with a path-traversal error
and no file-system effect. -/
theorem extractFile_of_pathBad (d : String) (e : ZipEntry) (fs : FS)
    (h : pathOk d e.name = false) :
    extractFile d e fs = (fs, some (ExtractError.pathTraversal e.name)) := by
  simp only [pathOk] at h
  simp [extractFile, h]

/-- A successful `extractFile` call implies the entry passed the path
guard. -/
theorem extractFile_none_pathOk (d : String) (e : ZipEntry) (fs : FS)
    (h : (extractFile d e fs).2 = none) : pathOk d e.name = true := by
  cases hp : pathOk d e.name with
  | true => rfl
  | false => rw [extractFile_of_pathBad d e fs hp] at h; simp at h

/-- Whatever branch `extractFile` takes, every file present afterwards was
either already present or written at a path that passed the
prefix-plus-separator containment check. -/
theorem extractFile_files_sub (d : String) (e : ZipEntry) (fs : FS)
    (p : String) (c : List Nat)
    (h : (p, c) ∈ ((extractFile d e fs).1).files) :
    (p, c) ∈ fs.files ∨
      strHasPref p (filepathClean d ++ "/") = true := by
  obtain ⟨nm, di, ds, ct, md, o, m, cr, cp⟩ := e
  cases hp : strHasPref (filepathJoin d nm) (filepathClean d ++ "/") with
  | false =>
    simp [extractFile, hp] at h
    exact Or.inl h
  | true =>
    cases o <;> cases di <;> cases m <;> cases cr <;> cases cp <;>
      by_cases hsz : ct.length = ds <;>
      simp [extractFile, hp, hsz, List.mem_cons] at h <;>
      try exact Or.inl h
    all_goals
      rcases h with ⟨h1, _⟩ | h
      · exact Or.inr (h1 ▸ hp)
      · exact Or.inl h

/- ### Lemmas about extractLoop -/

/-- The per-file ceiling is below the int64 overflow guard. -/
theorem maxFileSize_le_maxInt64 : maxFileSize ≤ maxInt64 := by decide

/-- Declared-size sum of a cons. -/
theorem sumDeclared_cons (e : ZipEntry) (l : List ZipEntry) :
    sumDeclared (e :: l) = e.declaredSize + sumDeclared l := by
  simp [sumDeclared]

/-- Running the loop over a block of entries that all pass the size checks
and extract cleanly just accumulates their effects and continues with the
rest. -/
theorem extractLoop_append (d : String) (good rest : List ZipEntry)
    (fs : FS) (total : Nat) (names : List String)
    (hok : ∀ e ∈ good, e.declaredSize ≤ maxFileSize ∧ entryOk d e = true)
    (hT : total + sumDeclared good ≤ maxTotalSize) :
    extractLoop d (good ++ rest) fs total names =
      extractLoop d rest (good.foldl (fsStep d) fs) (total + sumDeclared good)
        ((good.map ZipEntry.name).reverse ++ names) := by
  induction good generalizing fs total names with
  | nil => simp [sumDeclared]
  | cons e tail ih =>
    obtain ⟨h1, h2⟩ := hok e (by simp)
    rw [sumDeclared_cons] at hT
    have hn1 : ¬ e.declaredSize > maxFileSize := by omega
    have hn2 : ¬ e.declaredSize > maxInt64 := by
      have := maxFileSize_le_maxInt64; omega
    have hn3 : ¬ total + e.declaredSize > maxTotalSize := by omega
    rw [List.cons_append]
    rw [show extractLoop d (e :: (tail ++ rest)) fs total names =
        extractLoop d (tail ++ rest) (fsStep d fs e) (total + e.declaredSize)
          (e.name :: names) by
      simp [extractLoop, hn1, hn2, hn3, extractFile_of_entryOk d e fs h2]]
    rw [ih (fsStep d fs e) (total + e.declaredSize) (e.name :: names)
      (fun x hx => hok x (by simp [hx])) (by omega)]
    simp [sumDeclared_cons, List.append_assoc, Nat.add_assoc]

/-- Inversion of a successful loop run: the returned manifest is the
accumulator followed by the entry names in archive order, the returned total
is the starting total plus the declared sizes, and every entry passed the
path-traversal guard. -/
theorem extractLoop_ok_inv (d : String) (entries : List ZipEntry) (fs : FS)
    (total : Nat) (names : List String) (r : List String × Nat)
    (h : (extractLoop d entries fs total names).2 = Except.ok r) :
    r.1 = names.reverse ++ entries.map ZipEntry.name ∧
    r.2 = total + sumDeclared entries ∧
    ∀ e ∈ entries, pathOk d e.name = true := by
  induction entries generalizing fs total names with
  | nil =>
    simp [extractLoop] at h
    simp [← h, sumDeclared]
  | cons e tail ih =>
    by_cases hn1 : e.declaredSize > maxFileSize
    · simp [extractLoop, hn1] at h
    · by_cases hn2 : e.declaredSize > maxInt64
      · simp [extractLoop, hn1, hn2] at h
      · by_cases hn3 : total + e.declaredSize > maxTotalSize
        · simp [extractLoop, hn1, hn2, hn3] at h
        · rcases hEF : extractFile d e fs with ⟨fs2, oe⟩
          cases oe with
          | some err => simp [extractLoop, hn1, hn2, hn3, hEF] at h
          | none =>
            have hstep : (extractLoop d (e :: tail) fs total names).2 =
                (extractLoop d tail fs2 (total + e.declaredSize) (e.name :: names)).2 := by
              simp [extractLoop, hn1, hn2, hn3, hEF]
            rw [hstep] at h
            obtain ⟨ha, hb, hc⟩ := ih fs2 (total + e.declaredSize) (e.name :: names) h
            refine ⟨?_, ?_, ?_⟩
            · simp [ha, List.append_assoc]
            · rw [hb, sumDeclared_cons]; omega
            · intro x hx
              rcases List.mem_cons.mp hx with hx | hx
              · subst hx
                exact extractFile_none_pathOk d x fs (by rw [hEF])
              · exact hc x hx

/-- Every file present after a loop run was already present before it or was
written at a path that passed the containment check. -/
theorem extractLoop_files_sub (d : String) (entries : List ZipEntry) (fs : FS)
    (total : Nat) (names : List String) (p : String) (c : List Nat)
    (h : (p, c) ∈ ((extractLoop d entries fs total names).1).files) :
    (p, c) ∈ fs.files ∨ strHasPref p (filepathClean d ++ "/") = true := by
  induction entries generalizing fs total names with
  | nil =>
    simp [extractLoop] at h
    exact Or.inl h
  | cons e tail ih =>
    by_cases hn1 : e.declaredSize > maxFileSize
    · simp [extractLoop, hn1] at h; exact Or.inl h
    · by_cases hn2 : e.declaredSize > maxInt64
      · simp [extractLoop, hn1, hn2] at h; exact Or.inl h
      · by_cases hn3 : total + e.declaredSize > maxTotalSize
        · simp [extractLoop, hn1, hn2, hn3] at h; exact Or.inl h
        · rcases hEF : extractFile d e fs with ⟨fs2, oe⟩
          have hsub : (p, c) ∈ fs2.files →
              (p, c) ∈ fs.files ∨ strHasPref p (filepathClean d ++ "/") = true := by
            intro hm
            exact extractFile_files_sub d e fs p c (by rw [hEF]; exact hm)
          cases oe with
          | some err =>
            simp [extractLoop, hn1, hn2, hn3, hEF] at h
            exact hsub h
          | none =>
            have hstep : (extractLoop d (e :: tail) fs total names).1 =
                (extractLoop d tail fs2 (total + e.declaredSize) (e.name :: names)).1 := by
              simp [extractLoop, hn1, hn2, hn3, hEF]
            rw [hstep] at h
            rcases ih fs2 (total + e.declaredSize) (e.name :: names) h with hm | hm
            · exact hsub hm
            · exact Or.inr hm

/- ### Lemmas about the accumulated file-system effect -/

/-- The fold of successful per-entry effects never touches the
temp-directory-exists flag. -/
theorem foldl_fsStep_tempDir (d : String) (entries : List ZipEntry) (fs : FS) :
    (entries.foldl (fsStep d) fs).tempDirExists = fs.tempDirExists := by
  induction entries generalizing fs with
  | nil => rfl
  | cons e tail ih =>
    rw [List.foldl_cons, ih]
    unfold fsStep
    by_cases hd : e.isDir <;> simp [hd]

/-- For file entries, the fold of successful per-entry effects writes exactly
the joined destination paths with the entry contents, most recent first. -/
theorem foldl_fsStep_files (d : String) (entries : List ZipEntry) (fs : FS)
    (hnd : ∀ e ∈ entries, e.isDir = false) :
    (entries.foldl (fsStep d) fs).files =
      (entries.map (fun e => (filepathJoin d e.name, e.content))).reverse ++ fs.files := by
  induction entries generalizing fs with
  | nil => simp
  | cons e tail ih =>
    have hde : e.isDir = false := hnd e (by simp)
    rw [List.foldl_cons, ih (fsStep d fs e) (fun x hx => hnd x (by simp [hx]))]
    simp [fsStep, hde, List.append_assoc]

/- ### Lemmas about extractZip -/

/-- Successful extraction engine: when both directory-setup calls succeed,
every entry is within the per-file ceiling, passes the path guard with clean
OS calls, and the declared total fits the ceiling, `extractZip` succeeds with
the manifest in archive order, the declared total as the size, and the folded
file-system effect. -/
theorem extractZip_ok (env : ExtractEnv) (entries : List ZipEntry)
    (hm : env.mkdirTempFails = false) (hc : env.chmodFails = false)
    (hok : ∀ e ∈ entries, e.declaredSize ≤ maxFileSize ∧ entryOk env.tempDir e = true)
    (hT : sumDeclared entries ≤ maxTotalSize) :
    extractZip env (some entries) =
      (entries.foldl (fsStep env.tempDir) freshFS,
       Except.ok ⟨env.tempDir, entries.map ZipEntry.name, sumDeclared entries⟩) := by
  have hl := extractLoop_append env.tempDir entries [] freshFS 0 [] hok (by omega)
  rw [List.append_nil] at hl
  simp only [extractZip, hm, hc, Bool.false_eq_true, if_false, hl, extractLoop,
    Nat.zero_add, List.append_nil, List.reverse_reverse]

/-- The value/error component of `extractZip` does not depend on whether the
deferred os.RemoveAll cleanup succeeds. -/
theorem extractZip_snd_removeFlag (env : ExtractEnv) (b : Bool)
    (zipData : Option (List ZipEntry)) :
    (extractZip ⟨env.tempDir, env.mkdirTempFails, env.chmodFails, b⟩ zipData).2 =
      (extractZip env zipData).2 := by
  unfold extractZip
  by_cases h1 : env.mkdirTempFails <;> by_cases h2 : env.chmodFails <;>
    simp only [h1, h2, Bool.false_eq_true, if_true, if_false] <;>
    try rfl
  cases zipData with
  | none => rfl
  | some entries =>
    rcases hl : extractLoop env.tempDir entries freshFS 0 [] with ⟨fs, r⟩
    cases r with
    | error e => simp [hl]
    | ok p => rcases p with ⟨names, total⟩; simp [hl]

/-- On any error the deferred cleanup runs; if os.RemoveAll succeeds the
temporary directory and everything under it are gone. -/
theorem extractZip_err_fs (env : ExtractEnv) (zipData : Option (List ZipEntry))
    (e : ExtractError) (hr : env.removeAllFails = false)
    (h : (extractZip env zipData).2 = Except.error e) :
    (extractZip env zipData).1 = ⟨false, [], []⟩ := by
  unfold extractZip at h ⊢
  by_cases h1 : env.mkdirTempFails
  · simp [h1, emptyFS]
  · by_cases h2 : env.chmodFails
    · simp [h1, h2, removeAll, hr]
    · cases zipData with
      | none => simp [h1, h2, removeAll, hr]
      | some entries =>
        rcases hl : extractLoop env.tempDir entries freshFS 0 [] with ⟨fs, r⟩
        cases r with
        | error e2 => simp [h1, h2, hl, removeAll, hr]
        | ok p =>
          rcases p with ⟨names, total⟩
          simp [h1, h2, hl] at h

/-- Any successful `extractZip` result implies both directory-setup calls
succeeded and the loop returned it. -/
theorem extractZip_ok_inv (env : ExtractEnv) (entries : List ZipEntry)
    (r : DownloadResult)
    (h : (extractZip env (some entries)).2 = Except.ok r) :
    r.tempDir = env.tempDir ∧
    r.files = entries.map ZipEntry.name ∧
    r.size = sumDeclared entries ∧
    ∀ e ∈ entries, pathOk env.tempDir e.name = true := by
  unfold extractZip at h
  by_cases h1 : env.mkdirTempFails
  · simp [h1] at h
  · by_cases h2 : env.chmodFails
    · simp [h1, h2] at h
    · rcases hl : extractLoop env.tempDir entries freshFS 0 [] with ⟨fs, lr⟩
      cases lr with
      | error e2 => simp [h1, h2, hl] at h
      | ok p =>
        rcases p with ⟨names, total⟩
        simp only [h1, h2, Bool.false_eq_true, if_false, hl] at h
        obtain ⟨ha, hb, hc⟩ := extractLoop_ok_inv env.tempDir entries freshFS 0 []
          (names, total) (by rw [hl])
        simp only [List.reverse_nil, List.nil_append] at ha
        simp only [Nat.zero_add] at hb
        cases h
        exact ⟨rfl, ha, hb, hc⟩

/-- A destination that cleans to the root itself cannot start with the root
plus a separator, so the guard rejects it. -/
theorem pathOk_root_self (d nm : String)
    (h : filepathJoin d nm = filepathClean d) :
    pathOk d nm = false := by
  unfold pathOk
  rw [h]
  cases hb : strHasPref (filepathClean d) (filepathClean d ++ "/") with
  | false => rfl
  | true =>
    exfalso
    unfold strHasPref at hb
    have hpre := List.isPrefixOf_iff_prefix.mp hb
    rw [String.data_append] at hpre
    have hlen := hpre.length_le
    simp at hlen

/-- Claim C1, as frozen, is false on the code: an entry name may contain a
`../` sequence, or be an absolute path, and still be extracted, because
filepath.Join cleans the name against the root before the check: `a/../b`
resolves to root/b and `/abs/evil` is re-rooted to root/abs/evil, so the
guard passes and extraction succeeds rather than failing. -/
theorem claim1_counterexample :
    strContainsSub "a/../b" "../" = true ∧
    (extractZip ⟨"/tmp/x", false, false, false⟩
        (some [⟨"a/../b", false, 1, [65], 420, false, false, false, none⟩])).2 =
      Except.ok ⟨"/tmp/x", ["a/../b"], 1⟩ ∧
    (extractZip ⟨"/tmp/x", false, false, false⟩
        (some [⟨"/abs/evil", false, 1, [65], 420, false, false, false, none⟩])).2 =
      Except.ok ⟨"/tmp/x", ["/abs/evil"], 1⟩ := by
  refine ⟨by decide, rfl, rfl⟩

/-- Claim C1 (amended): for every archive entry whose joined destination path
fails the prefix-plus-separator check against the extraction root — i.e.
whose name, cleaned against the root, resolves outside the root or to the
root itself — extraction fails, the temporary directory is removed (when the
best-effort removal succeeds), no file is ever written outside the extraction
root during the run, and a destination resolving to the root itself is always
rejected by the check. -/
theorem claim1_amended (env : ExtractEnv) (entries : List ZipEntry)
    (x : ZipEntry) (hx : x ∈ entries)
    (hbad : pathOk env.tempDir x.name = false)
    (hr : env.removeAllFails = false) :
    (∃ e, (extractZip env (some entries)).2 = Except.error e) ∧
    (extractZip env (some entries)).1 = ⟨false, [], []⟩ ∧
    (∀ p c, (p, c) ∈ ((extractLoop env.tempDir entries freshFS 0 []).1).files →
      strHasPref p (filepathClean env.tempDir ++ "/") = true) ∧
    (∀ nm, filepathJoin env.tempDir nm = filepathClean env.tempDir →
      pathOk env.tempDir nm = false) := by
  have herr : ∃ e, (extractZip env (some entries)).2 = Except.error e := by
    rcases hres : (extractZip env (some entries)).2 with e | r
    · exact ⟨e, rfl⟩
    · exfalso
      obtain ⟨_, _, _, hall⟩ := extractZip_ok_inv env entries r hres
      rw [hall x hx] at hbad
      simp at hbad
  obtain ⟨e, he⟩ := herr
  refine ⟨⟨e, he⟩, extractZip_err_fs env (some entries) e hr he, ?_, ?_⟩
  · intro p c hmem
    rcases extractLoop_files_sub env.tempDir entries freshFS 0 [] p c hmem with hm | hm
    · simp [freshFS] at hm
    · exact hm
  · intro nm h
    exact pathOk_root_self env.tempDir nm h

/-- Witness for claim C1 (amended) at the spec's own example, the entry named
`../evil` under a concrete root: extraction rejects it and the temporary
directory is removed. -/
theorem claim1_amended_witness :
    (extractZip ⟨"/tmp/x", false, false, false⟩
        (some [⟨"../evil", false, 1, [66], 420, false, false, false, none⟩])).1 =
      ⟨false, [], []⟩ ∧
    (∃ e, (extractZip ⟨"/tmp/x", false, false, false⟩
        (some [⟨"../evil", false, 1, [66], 420, false, false, false, none⟩])).2 =
      Except.error e) := by
  refine ⟨(claim1_amended ⟨"/tmp/x", false, false, false⟩
      [⟨"../evil", false, 1, [66], 420, false, false, false, none⟩]
      ⟨"../evil", false, 1, [66], 420, false, false, false, none⟩
      (by decide) (by decide) rfl).2.1,
    (claim1_amended ⟨"/tmp/x", false, false, false⟩
      [⟨"../evil", false, 1, [66], 420, false, false, false, none⟩]
      ⟨"../evil", false, 1, [66], 420, false, false, false, none⟩
      (by decide) (by decide) rfl).1⟩

/-- Claim C2: on every input on which extraction fails at any step,
`extractZip` removes the entire temporary directory before returning the
error (when the best-effort removal succeeds; a removal failure leaves the
returned error unchanged rather than masking it), and never returns a result
handle. -/
theorem claim2_cleanup (env : ExtractEnv) (zipData : Option (List ZipEntry))
    (e : ExtractError) (h : (extractZip env zipData).2 = Except.error e) :
    (env.removeAllFails = false → (extractZip env zipData).1 = ⟨false, [], []⟩) ∧
    (∀ b, (extractZip ⟨env.tempDir, env.mkdirTempFails, env.chmodFails, b⟩
      zipData).2 = Except.error e) ∧
    (∀ r, (extractZip env zipData).2 ≠ Except.ok r) := by
  refine ⟨fun hr => extractZip_err_fs env zipData e hr h, fun b => ?_, fun r hk => ?_⟩
  · rw [extractZip_snd_removeFlag env b zipData, h]
  · rw [h] at hk
    exact Except.noConfusion hk

/-- Witness for claim C2 on a concrete failing input (unparseable archive
bytes): the temporary directory is removed, and a failing removal does not
replace the original error. -/
theorem claim2_cleanup_witness :
    (extractZip ⟨"/tmp/x", false, false, false⟩ none).1 = ⟨false, [], []⟩ ∧
    (extractZip ⟨"/tmp/x", false, false, true⟩ none).2 =
      Except.error ExtractError.invalidArchive := by
  refine ⟨(claim2_cleanup ⟨"/tmp/x", false, false, false⟩ none
      ExtractError.invalidArchive rfl).1 rfl,
    (claim2_cleanup ⟨"/tmp/x", false, false, false⟩ none
      ExtractError.invalidArchive rfl).2.1 true⟩

/-- Claim C3: an entry whose declared uncompressed size exceeds the per-file
ceiling is rejected before any byte of its content is extracted, and a run of
entries whose declared sizes first cross the total ceiling at a given entry is
rejected exactly at that entry — the entries before it are fully extracted
(the file-system state is exactly their accumulated effect), the crossing
entry and everything after it contribute nothing, and both checks fire before
that entry's extraction. -/
theorem claim3_quota (env : ExtractEnv) (good rest : List ZipEntry)
    (e : ZipEntry)
    (hm : env.mkdirTempFails = false) (hc : env.chmodFails = false)
    (hgood : ∀ x ∈ good, x.declaredSize ≤ maxFileSize ∧ entryOk env.tempDir x = true)
    (hfirst : sumDeclared good ≤ maxTotalSize) :
    (e.declaredSize > maxFileSize →
      extractZip env (some (good ++ e :: rest)) =
        (removeAll env (good.foldl (fsStep env.tempDir) freshFS),
         Except.error (ExtractError.fileTooLarge e.name))) ∧
    (e.declaredSize ≤ maxFileSize →
     sumDeclared good + e.declaredSize > maxTotalSize →
      extractZip env (some (good ++ e :: rest)) =
        (removeAll env (good.foldl (fsStep env.tempDir) freshFS),
         Except.error (ExtractError.totalTooLarge
           (sumDeclared good + e.declaredSize)))) := by
  have hl := extractLoop_append env.tempDir good (e :: rest) freshFS 0 [] hgood
    (by omega)
  constructor
  · intro hbig
    have hloop : extractLoop env.tempDir (good ++ e :: rest) freshFS 0 [] =
        (good.foldl (fsStep env.tempDir) freshFS,
         Except.error (ExtractError.fileTooLarge e.name)) := by
      rw [hl]
      simp [extractLoop, hbig]
    simp [extractZip, hm, hc, hloop]
  · intro hsmall hcross
    have hn1 : ¬ e.declaredSize > maxFileSize := by omega
    have hn2 : ¬ e.declaredSize > maxInt64 := by
      have := maxFileSize_le_maxInt64; omega
    have hloop : extractLoop env.tempDir (good ++ e :: rest) freshFS 0 [] =
        (good.foldl (fsStep env.tempDir) freshFS,
         Except.error (ExtractError.totalTooLarge
           (sumDeclared good + e.declaredSize))) := by
      rw [hl]
      have hgt : 0 + sumDeclared good + e.declaredSize > maxTotalSize := by omega
      simp only [extractLoop, hn1, hn2, if_false, Nat.zero_add]
      simp [hn1, hn2, show sumDeclared good + e.declaredSize > maxTotalSize
        from by omega]
    simp [extractZip, hm, hc, hloop]

/-- Ten directory entries whose crafted headers each declare exactly the
per-file ceiling (a directory's content is never read, so the declared size
is unconstrained): their declared sizes sum to exactly the total ceiling, so
the next entry crosses it. -/
def tenGigEntries : List ZipEntry :=
  List.replicate 10 ⟨"a", true, 1073741824, [], 493, false, false, false, none⟩

/-- Witness for claim C3: a lone entry declaring one byte over the per-file
ceiling is rejected with nothing extracted; after ten entries that fill the
total ceiling exactly, a one-byte entry is rejected as the crossing entry. -/
theorem claim3_quota_witness :
    extractZip ⟨"/tmp/x", false, false, false⟩
        (some [⟨"big", false, 1073741825, [], 0, false, false, false, none⟩]) =
      (⟨false, [], []⟩, Except.error (ExtractError.fileTooLarge "big")) ∧
    extractZip ⟨"/tmp/x", false, false, false⟩
        (some (tenGigEntries ++ [⟨"c", false, 1, [7], 0, false, false, false, none⟩])) =
      (⟨false, [], []⟩, Except.error (ExtractError.totalTooLarge 10737418241)) := by
  refine ⟨(claim3_quota ⟨"/tmp/x", false, false, false⟩ [] []
      ⟨"big", false, 1073741825, [], 0, false, false, false, none⟩
      rfl rfl (by decide) (by decide)).1 (by decide),
    (claim3_quota ⟨"/tmp/x", false, false, false⟩ tenGigEntries []
      ⟨"c", false, 1, [7], 0, false, false, false, none⟩
      rfl rfl (by decide) (by decide)).2 (by decide) (by decide)⟩

/-- Claim C4: for every work function passed to Dispatch, a panic is
recovered inside the dispatch boundary and produces exactly one structured
error log entry carrying the recovered payload and the textual stack, tagged
"panic in async handler"; a returned error produces exactly one log entry
tagged "error in async handler"; the two tags are distinct; a nil return
logs nothing; and in every case Dispatch hands back only unit — no error,
value or handle reaches the dispatching caller. -/
theorem claim4_dispatch_boundary (ctx : GoContext)
    (handler : GoContext → HandlerOutcome) :
    Dispatch ctx handler =
      ((), runDispatchBoundary (handler (newBackgroundContext ctx))) ∧
    (∀ payload stack, runDispatchBoundary (HandlerOutcome.panicked payload stack) =
      [⟨"error", "panic in async handler",
        [("recover", payload), ("stack", stack)]⟩]) ∧
    (∀ msg, runDispatchBoundary (HandlerOutcome.err msg) =
      [⟨"error", "error in async handler", [("error", msg)]⟩]) ∧
    ("panic in async handler" : String) ≠ "error in async handler" ∧
    runDispatchBoundary HandlerOutcome.ok = [] := by
  exact ⟨rfl, fun _ _ => rfl, fun _ => rfl, by decide, rfl⟩

/-- Claim C5: the context handed to dispatched work is a fresh background
context carrying exactly the caller's structured logger and nothing else: it
is not cancelled, has no deadline and holds no other values, and cancelling
or adding a deadline to the caller's context leaves the derived context —
and hence the dispatched work's context — unchanged. -/
theorem claim5_context_detached (ctx : GoContext) (d : Nat)
    (handler : GoContext → HandlerOutcome) :
    newBackgroundContext ctx = ⟨some (ctxlogFrom ctx), false, none, []⟩ ∧
    (newBackgroundContext ctx).cancelled = false ∧
    (newBackgroundContext ctx).deadline = none ∧
    (newBackgroundContext ctx).otherValues = [] ∧
    newBackgroundContext (cancelContext ctx) = newBackgroundContext ctx ∧
    newBackgroundContext (withDeadline ctx d) = newBackgroundContext ctx ∧
    (Dispatch ctx handler).2 =
      runDispatchBoundary (handler (newBackgroundContext ctx)) := by
  exact ⟨rfl, rfl, rfl, rfl, rfl, rfl, rfl⟩

/-- Claim C6: for a well-formed archive of file entries — names that join
plainly under the root, truthful declared sizes, sizes within both ceilings,
clean OS calls — extraction succeeds, the file written at root/name is
byte-identical to the entry content for every entry, the manifest lists
exactly the entry names in archive order, the returned size is the total
content byte count, and the temporary directory is handed over intact. -/
theorem claim6_roundtrip (env : ExtractEnv) (entries : List ZipEntry)
    (hm : env.mkdirTempFails = false) (hc : env.chmodFails = false)
    (hok : ∀ e ∈ entries, e.declaredSize ≤ maxFileSize ∧ entryOk env.tempDir e = true)
    (hnd : ∀ e ∈ entries, e.isDir = false)
    (hsz : ∀ e ∈ entries, e.declaredSize = e.content.length)
    (hT : sumDeclared entries ≤ maxTotalSize)
    (hplain : ∀ e ∈ entries,
      filepathJoin env.tempDir e.name = env.tempDir ++ "/" ++ e.name) :
    (extractZip env (some entries)).2 =
      Except.ok ⟨env.tempDir, entries.map ZipEntry.name,
        (entries.map (fun e => e.content.length)).sum⟩ ∧
    ((extractZip env (some entries)).1).files =
      (entries.map (fun e => (env.tempDir ++ "/" ++ e.name, e.content))).reverse ∧
    ((extractZip env (some entries)).1).tempDirExists = true := by
  rw [extractZip_ok env entries hm hc hok hT]
  refine ⟨?_, ?_, ?_⟩
  · have hs : sumDeclared entries = (entries.map (fun e => e.content.length)).sum := by
      unfold sumDeclared
      exact congrArg List.sum (List.map_congr_left hsz)
    rw [hs]
  · rw [foldl_fsStep_files env.tempDir entries freshFS hnd]
    have hmap : entries.map (fun e => (filepathJoin env.tempDir e.name, e.content)) =
        entries.map (fun e => (env.tempDir ++ "/" ++ e.name, e.content)) :=
      List.map_congr_left (fun e he => by rw [hplain e he])
    rw [hmap]
    simp [freshFS]
  · rw [foldl_fsStep_tempDir]
    rfl

/-- Witness for claim C6 at the spec's example archive
(a/README.md ↦ "hello", a/x.bin ↦ two bytes): size 7, both files placed
byte-identically under the root, manifest in archive order. -/
theorem claim6_roundtrip_witness :
    (extractZip ⟨"/tmp/x", false, false, false⟩ (some
      [⟨"a/README.md", false, 5, [104, 101, 108, 108, 111], 420, false, false, false, none⟩,
       ⟨"a/x.bin", false, 2, [0, 1], 420, false, false, false, none⟩])).2 =
      Except.ok ⟨"/tmp/x", ["a/README.md", "a/x.bin"], 7⟩ ∧
    ((extractZip ⟨"/tmp/x", false, false, false⟩ (some
      [⟨"a/README.md", false, 5, [104, 101, 108, 108, 111], 420, false, false, false, none⟩,
       ⟨"a/x.bin", false, 2, [0, 1], 420, false, false, false, none⟩])).1).files =
      [("/tmp/x/a/x.bin", [0, 1]),
       ("/tmp/x/a/README.md", [104, 101, 108, 108, 111])] := by
  refine ⟨(claim6_roundtrip ⟨"/tmp/x", false, false, false⟩
      [⟨"a/README.md", false, 5, [104, 101, 108, 108, 111], 420, false, false, false, none⟩,
       ⟨"a/x.bin", false, 2, [0, 1], 420, false, false, false, none⟩]
      rfl rfl (by decide) (by decide) (by decide) (by decide) (by decide)).1,
    (claim6_roundtrip ⟨"/tmp/x", false, false, false⟩
      [⟨"a/README.md", false, 5, [104, 101, 108, 108, 111], 420, false, false, false, none⟩,
       ⟨"a/x.bin", false, 2, [0, 1], 420, false, false, false, none⟩]
      rfl rfl (by decide) (by decide) (by decide) (by decide) (by decide)).2.1⟩

/-- A successful `extractFile` call on a file entry implies its stream length
matched its declared uncompressed size (the zip reader fails the copy
otherwise). -/
theorem extractFile_none_truthful (d : String) (e : ZipEntry) (fs : FS)
    (h : (extractFile d e fs).2 = none) (hnd : e.isDir = false) :
    e.content.length = e.declaredSize := by
  obtain ⟨nm, di, ds, ct, md, o, m, cr, cp⟩ := e
  simp only at hnd
  subst hnd
  by_cases hsz : ct.length = ds
  · exact hsz
  · exfalso
    cases hp : strHasPref (filepathJoin d nm) (filepathClean d ++ "/") <;>
      cases o <;> cases m <;> cases cr <;> cases cp <;>
      simp [extractFile, hp, hsz] at h

/-- On a successful loop run every file entry was written with exactly its
declared number of bytes. -/
theorem extractLoop_ok_truthful (d : String) (entries : List ZipEntry)
    (fs : FS) (total : Nat) (names : List String) (r : List String × Nat)
    (h : (extractLoop d entries fs total names).2 = Except.ok r) :
    ∀ e ∈ entries, e.isDir = false → e.content.length = e.declaredSize := by
  induction entries generalizing fs total names with
  | nil => simp
  | cons e tail ih =>
    by_cases hn1 : e.declaredSize > maxFileSize
    · simp [extractLoop, hn1] at h
    · by_cases hn2 : e.declaredSize > maxInt64
      · simp [extractLoop, hn1, hn2] at h
      · by_cases hn3 : total + e.declaredSize > maxTotalSize
        · simp [extractLoop, hn1, hn2, hn3] at h
        · rcases hEF : extractFile d e fs with ⟨fs2, oe⟩
          cases oe with
          | some err => simp [extractLoop, hn1, hn2, hn3, hEF] at h
          | none =>
            have hstep : (extractLoop d (e :: tail) fs total names).2 =
                (extractLoop d tail fs2 (total + e.declaredSize)
                  (e.name :: names)).2 := by
              simp [extractLoop, hn1, hn2, hn3, hEF]
            rw [hstep] at h
            intro x hx hxd
            rcases List.mem_cons.mp hx with hx | hx
            · subst hx
              exact extractFile_none_truthful d x fs (by rw [hEF]) hxd
            · exact ih fs2 (total + e.declaredSize) (e.name :: names) h x hx hxd

/-- On every successful extraction every file entry was written with exactly
its declared number of bytes; only directory entries can make the declared
total diverge from the bytes actually written. -/
theorem extractZip_ok_truthful (env : ExtractEnv) (entries : List ZipEntry)
    (r : DownloadResult)
    (h : (extractZip env (some entries)).2 = Except.ok r) :
    ∀ e ∈ entries, e.isDir = false → e.content.length = e.declaredSize := by
  unfold extractZip at h
  by_cases h1 : env.mkdirTempFails
  · simp [h1] at h
  · by_cases h2 : env.chmodFails
    · simp [h1, h2] at h
    · rcases hl : extractLoop env.tempDir entries freshFS 0 [] with ⟨fs, lr⟩
      cases lr with
      | error e2 => simp [h1, h2, hl] at h
      | ok p =>
        exact extractLoop_ok_truthful env.tempDir entries freshFS 0 [] p
          (by rw [hl])

/-- Claim C7, as frozen, is false on the code: `extractZip` accumulates the
headers' declared uncompressed sizes, and a directory entry's declared size
is counted although its content is never read or written (extractFile
returns at the IsDir branch before any byte of content is touched). An
archive holding a crafted directory header that declares 3 bytes plus a
truthful 2-byte file extracts successfully with Size 5 while only 2 bytes
were actually written. (For file entries the two cannot diverge on success:
the zip reader fails the copy when the stream differs from the header.) -/
theorem claim7_counterexample :
    (extractZip ⟨"/tmp/x", false, false, false⟩ (some
      [⟨"d/", true, 3, [], 493, false, false, false, none⟩,
       ⟨"f", false, 2, [1, 2], 420, false, false, false, none⟩])).2 =
      Except.ok ⟨"/tmp/x", ["d/", "f"], 5⟩ ∧
    (((extractZip ⟨"/tmp/x", false, false, false⟩ (some
      [⟨"d/", true, 3, [], 493, false, false, false, none⟩,
       ⟨"f", false, 2, [1, 2], 420, false, false, false, none⟩])).1).files.map
        (fun pc => pc.2.length)).sum = 2 ∧
    (5 : Nat) ≠ 2 := by
  exact ⟨rfl, rfl, by decide⟩

/-- Claim C7 (amended): on every successful extraction the returned Size is
the sum of the entries' declared uncompressed sizes, and the manifest is the
entry names in archive order; every file entry's written bytes equal its
declared size (the zip reader fails the extraction otherwise), but a
directory entry contributes its declared size while no bytes are written for
it, so Size equals the actually written byte count only when every directory
entry declares zero. -/
theorem claim7_amended (env : ExtractEnv) (entries : List ZipEntry)
    (r : DownloadResult)
    (h : (extractZip env (some entries)).2 = Except.ok r) :
    r.size = sumDeclared entries ∧ r.files = entries.map ZipEntry.name ∧
    ∀ e ∈ entries, e.isDir = false → e.content.length = e.declaredSize :=
  ⟨(extractZip_ok_inv env entries r h).2.2.1,
   (extractZip_ok_inv env entries r h).2.1,
   extractZip_ok_truthful env entries r h⟩

/-- Witness for claim C7 (amended) at the counterexample archive: the
returned Size is the declared total 5 (3 declared by the directory header
plus the file's 2), not the 2 bytes written. -/
theorem claim7_amended_witness :
    (⟨"/tmp/x", ["d/", "f"], 5⟩ : DownloadResult).size =
      sumDeclared [⟨"d/", true, 3, [], 493, false, false, false, none⟩,
        ⟨"f", false, 2, [1, 2], 420, false, false, false, none⟩] ∧
    (⟨"/tmp/x", ["d/", "f"], 5⟩ : DownloadResult).files =
      ([⟨"d/", true, 3, [], 493, false, false, false, none⟩,
        ⟨"f", false, 2, [1, 2], 420, false, false, false, none⟩] :
        List ZipEntry).map ZipEntry.name := by
  refine ⟨(claim7_amended ⟨"/tmp/x", false, false, false⟩
      [⟨"d/", true, 3, [], 493, false, false, false, none⟩,
       ⟨"f", false, 2, [1, 2], 420, false, false, false, none⟩]
      ⟨"/tmp/x", ["d/", "f"], 5⟩ rfl).1,
    (claim7_amended ⟨"/tmp/x", false, false, false⟩
      [⟨"d/", true, 3, [], 493, false, false, false, none⟩,
       ⟨"f", false, 2, [1, 2], 420, false, false, false, none⟩]
      ⟨"/tmp/x", ["d/", "f"], 5⟩ rfl).2.1⟩

/-- Claim C8: for every byte buffer the archive opener rejects, extraction
fails with the distinct invalid-archive error kind before any entry is
processed — the state the deferred cleanup sees still holds no files and no
directories — and the temporary directory is removed when the best-effort
removal succeeds. -/
theorem claim8_invalid_archive (env : ExtractEnv)
    (hm : env.mkdirTempFails = false) (hc : env.chmodFails = false) :
    (extractZip env none).2 = Except.error ExtractError.invalidArchive ∧
    (extractZip env none).1 = removeAll env freshFS ∧
    freshFS.files = [] ∧ freshFS.dirs = [] ∧
    (env.removeAllFails = false → (extractZip env none).1 = ⟨false, [], []⟩) := by
  refine ⟨?_, ?_, rfl, rfl, fun hr => ?_⟩
  · simp [extractZip, hm, hc]
  · simp [extractZip, hm, hc]
  · simp [extractZip, hm, hc, removeAll, hr]

/-- Witness for claim C8 on a concrete unparseable buffer: the
invalid-archive error is returned and the directory is gone. -/
theorem claim8_invalid_archive_witness :
    (extractZip ⟨"/tmp/x", false, false, false⟩ none).2 =
      Except.error ExtractError.invalidArchive ∧
    (extractZip ⟨"/tmp/x", false, false, false⟩ none).1 = ⟨false, [], []⟩ := by
  refine ⟨(claim8_invalid_archive ⟨"/tmp/x", false, false, false⟩ rfl rfl).1,
    (claim8_invalid_archive ⟨"/tmp/x", false, false, false⟩ rfl rfl).2.2.2.2 rfl⟩

/-- Claim C9: on every successful extraction the manifest holds the name of
every archive entry, directory entries included — its length is the archive's
entry count — and directory entries contribute their declared uncompressed
size to the returned Size exactly like file entries. -/
theorem claim9_manifest_dirs (env : ExtractEnv) (entries : List ZipEntry)
    (hm : env.mkdirTempFails = false) (hc : env.chmodFails = false)
    (hok : ∀ e ∈ entries, e.declaredSize ≤ maxFileSize ∧ entryOk env.tempDir e = true)
    (hT : sumDeclared entries ≤ maxTotalSize) :
    (extractZip env (some entries)).2 =
      Except.ok ⟨env.tempDir, entries.map ZipEntry.name, sumDeclared entries⟩ ∧
    (entries.map ZipEntry.name).length = entries.length := by
  rw [extractZip_ok env entries hm hc hok hT]
  exact ⟨rfl, by simp⟩

/-- Witness for claim C9 on an archive holding one directory entry that
declares 3 bytes and one 2-byte file: both names appear in the manifest
(length 2) and the size is 5, the directory's declared bytes included. -/
theorem claim9_manifest_dirs_witness :
    (extractZip ⟨"/tmp/x", false, false, false⟩ (some
      [⟨"a/", true, 3, [], 493, false, false, false, none⟩,
       ⟨"a/f.txt", false, 2, [9, 9], 420, false, false, false, none⟩])).2 =
      Except.ok ⟨"/tmp/x", ["a/", "a/f.txt"], 5⟩ ∧
    (["a/", "a/f.txt"] : List String).length = 2 := by
  refine ⟨(claim9_manifest_dirs ⟨"/tmp/x", false, false, false⟩
      [⟨"a/", true, 3, [], 493, false, false, false, none⟩,
       ⟨"a/f.txt", false, 2, [9, 9], 420, false, false, false, none⟩]
      rfl rfl (by decide) (by decide)).1,
    (claim9_manifest_dirs ⟨"/tmp/x", false, false, false⟩
      [⟨"a/", true, 3, [], 493, false, false, false, none⟩,
       ⟨"a/f.txt", false, 2, [9, 9], 420, false, false, false, none⟩]
      rfl rfl (by decide) (by decide)).2⟩

/-- Claim C10: ProcessRelease is a pure delegation — for every ReleaseInfo it
returns exactly what ProcessSource returns on the SourceInfo obtained by the
fixed field conversion: event type "release", Ref from the tag name, empty
Actor, and metadata {tag_name, release_name}. -/
theorem claim10_release_delegates (env : ExtractEnv)
    (download : String → String → String → Except String (Option (List ZipEntry)))
    (info : ReleaseInfo) :
    ProcessRelease env download info =
      ProcessSource env download
        ⟨info.owner, info.repo, info.commitSHA, "release", info.tagName, "",
         [("tag_name", info.tagName), ("release_name", info.releaseName)]⟩ :=
  rfl
